import Mathlib

set_option autoImplicit false

namespace Taf

/-! Shallow embedding of taf.repositoriesdb and taf.updater.lifecycle_handlers.
Python dicts are insertion-ordered association lists, metadata reads are
environment functions returning Except values, raised exceptions are Except
errors threaded explicitly, and the process-wide stores are passed as explicit
state. All definitions come first; the theorems about the claims follow. -/

/-- Commits are git commit shas, represented as strings. -/
abbrev Commit := String

/-- A Python dict with string keys: an insertion-ordered association list.
Lookup returns the first entry with the key; the mutating operations below keep
keys unique whenever the input dicts have unique keys. -/
abbrev Dict (α : Type) : Type := List (String × α)

/-- Dict lookup, as in Python d.get(k). -/
def dget {α : Type} : Dict α → String → Option α
  | [], _ => none
  | (k, v) :: rest, key => if k = key then some v else dget rest key

/-- Dict assignment d[k] = v: replaces the first entry holding the key in
place, otherwise appends, matching Python insertion-order semantics. -/
def dset {α : Type} : Dict α → String → α → Dict α
  | [], key, v => [(key, v)]
  | (k, w) :: rest, key, v =>
      if k = key then (key, v) :: rest else (k, w) :: dset rest key v

/-- Python d.update(other): assign every entry of other into d, in order. -/
def dupdate {α : Type} (d other : Dict α) : Dict α :=
  other.foldl (fun acc e => dset acc e.1 e.2) d

/-- The list of keys of a dict, in insertion order. -/
def dkeys {α : Type} (d : Dict α) : List String := d.map Prod.fst

/-- Flat JSON-like values, enough for the custom-data mappings and host
metadata that the claims manipulate. -/
inductive JVal where
  | str (s : String)
  | num (n : Int)
  | boolean (b : Bool)
  | null
deriving DecidableEq, Repr

/-- The exceptions of taf.exceptions raised by the code under study, plus the
Python built-in TypeError. Messages are carried as plain strings. -/
inductive Err where
  | repositoryInstantiation (path : String) (msg : String)
  | invalidOrMissingMetadata (msg : String)
  | repositoriesNotFound (msg : String)
  | typeError (msg : String)
deriving DecidableEq, Repr

/-- One piece of a mirror URL template: literal text or one of the two
placeholders org_name and repo_name that str.format substitutes. -/
inductive TmplPart where
  | lit (s : String)
  | orgName
  | repoName
deriving DecidableEq, Repr

/-- A mirror template string, parsed into literal and placeholder parts. -/
abbrev Template := List TmplPart

/-- Python mirror.format(org_name=..., repo_name=...): substitute the two
placeholders and concatenate. -/
def renderTemplate (t : Template) (org repo : String) : String :=
  t.foldl
    (fun acc part =>
      acc ++ match part with
             | .lit s => s
             | .orgName => org
             | .repoName => repo)
    ""

/-- One entry of repositories.json or dependencies.json: an optional explicit
urls list and an optional custom mapping. -/
structure RepoData where
  urls : Option (List String)
  custom : Option (Dict JVal)
deriving DecidableEq, Repr

/-- One signed-target entry as returned by get_singed_targets_with_custom_data:
only its optional custom mapping matters here. -/
structure TargetData where
  custom : Option (Dict JVal)
deriving DecidableEq, Repr

/-- Helper for pySplit: walk the characters, cutting at each separator. -/
def splitCharAux (sep : Char) : List Char → List Char → List String
  | [], cur => [String.mk cur.reverse]
  | c :: rest, cur =>
      if c = sep then String.mk cur.reverse :: splitCharAux sep rest []
      else splitCharAux sep rest (c :: cur)

/-- Python str.split with a one-character separator: an empty string yields
one empty segment, and adjacent separators yield empty segments, exactly as
s.split(sep) does in Python. -/
def pySplit (sep : Char) (s : String) : List String :=
  splitCharAux sep s.data []

/-- Embedding of _get_urls (repositoriesdb.py). The urls declared in the
repository data are returned verbatim; otherwise mirror templates are required
and the path must split into exactly two segments on the slash (the unpacking
org_name, repo_name = repo_path.split of the source). The original messages
interpolate the repository path; here they are carried next to it in the
repositoryInstantiation constructor. -/
def get_urls (mirrors : Option (List Template)) (repoPath : String)
    (repoData : RepoData) : Except Err (List String) :=
  match repoData.urls with
  | some urls => .ok urls
  | none =>
    match mirrors with
    | none =>
        .error (.repositoryInstantiation repoPath
          "targets/mirrors.json does not exists or is not valid and no urls specified in targets/repositories.json")
    | some ms =>
      match pySplit '/' repoPath with
      | [orgName, repoName] =>
          .ok (ms.map (fun m => renderTemplate m orgName repoName))
      | _ =>
          .error (.repositoryInstantiation repoPath
            "repository name is not in the org_name/repo_name format")

/-- Embedding of _get_custom_data (repositoriesdb.py). In the source,
custom = repo.get("custom", default-empty-dict) aliases the dict stored in the
repository data, and custom.update(target_custom) mutates it in place. The
mutation is rendered by explicit state passing: the first component is the
returned mapping, the second is the repository custom field after the call. -/
def get_custom_data (repoCustom : Option (Dict JVal))
    (target : Option TargetData) : Dict JVal × Option (Dict JVal) :=
  let custom := repoCustom.getD []
  let targetCustom := target.bind (fun t => t.custom)
  match targetCustom with
  | none => (custom, repoCustom)
  | some tc =>
      let merged := dupdate custom tc
      (merged, repoCustom.map (fun _ => merged))

/-- The lifecycle events of lifecycle_handlers.py. -/
inductive Event where
  | succeeded
  | changed
  | unchanged
  | failed
  | completed
deriving DecidableEq, Repr

/-- The lifecycle stages of lifecycle_handlers.py. -/
inductive LifecycleStage where
  | repo
  | host
  | update
deriving DecidableEq, Repr

/-- Embedding of the dispatch structure of _handle_event
(lifecycle_handlers.py): the sequence of script buckets executed for an
original event, each bucket named by the event whose scripts it runs.
handle_repo_event delegates to _handle_event with stage REPO; the stage only
selects the script directory, not the order. -/
def handle_event_buckets (event : Event) : List Event :=
  (if event = .changed ∨ event = .unchanged ∨ event = .succeeded then
    (if event = .changed then [Event.changed]
     else if event = .unchanged then [Event.unchanged]
     else []) ++ [Event.succeeded]
   else if event = .failed then [Event.failed]
   else [])
  ++ [Event.completed]

/-- One hosts.json entry for a single host: the auth_repos membership list
(the value of the AUTH_REPOS_HOSTS_KEY field) and the remaining host data
fields. dict(host_data) followed by popping the membership key yields rest. -/
structure HostData where
  authRepos : List String
  rest : Dict JVal
deriving DecidableEq, Repr

/-- The parsed content of one hosts.json file: host name to host data. -/
abbrev HostsInfo := Dict HostData

/-- The entries of one hosts.json content claiming a repository name: the
hosts whose membership list holds the name, paired with their data minus the
membership field. Used to state the host-resolution theorem. -/
def hostClaims (name : String) (hi : HostsInfo) : Dict (Dict JVal) :=
  (hi.filter (fun e => decide (name ∈ e.2.authRepos))).map
    (fun e => (e.1, e.2.rest))

/-- Embedding of set_hosts_of_repo (repositoriesdb.py). Iterates the supplied
hosts.json contents in order; every host whose membership list holds the
repository name is recorded with the membership field removed. The second
component is true exactly when the warning about an unclaimed repository is
logged; the hosts attribute of the repository is set to the first component. -/
def set_hosts_of_repo (name : String) (hosts : List HostsInfo) :
    Dict (Dict JVal) × Bool :=
  let hostsOfRepo :=
    hosts.foldl
      (fun acc hostsInfo =>
        hostsInfo.foldl
          (fun acc2 entry =>
            if name ∈ entry.2.authRepos then dset acc2 entry.1 entry.2.rest
            else acc2)
          acc)
      []
  (hostsOfRepo, hostsOfRepo.isEmpty)

/-- A constructed target repository handle (NamedGitRepository instance): the
arguments the constructor received. -/
structure GitRepo where
  rootDir : String
  name : String
  urls : List String
  custom : Dict JVal
deriving DecidableEq, Repr

/-- A constructed nested authentication repository handle
(NamedAuthenticationRepo instance), with the mutable hosts attribute that
set_hosts_of_repo assigns. -/
structure AuthRepo where
  rootDir : String
  name : String
  urls : List String
  custom : Dict JVal
  hosts : Dict (Dict JVal)
deriving DecidableEq, Repr

/-- One metadata read performed through the authentication repository (the
get_json / signed-targets accessors), recorded for the idempotence claims. -/
inductive ReadEvent where
  | repositoriesJson (c : Commit)
  | mirrorsJson (c : Commit)
  | signedTargets (c : Commit)
  | dependenciesJson (c : Commit)
  | ownHostsJson (c : Commit)
  | childHostsJson (path : String) (c : Commit)
deriving DecidableEq, Repr

/-- The observable behavior of one authentication repository for
load_repositories: repositoriesJson renders _load_repositories_json (ok none
when the file is absent at the revision and the read is skipped, error when
present but invalid), mirrorsJson renders _load_mirrors_json (never raises),
signedTargets renders _targets_of_roles, and instantiate renders the factory
or class-policy construction of one repository from root directory, path,
urls and custom data (an error string is a raised exception message). -/
structure RepoEnv where
  headCommit : Option Commit
  defaultRootDir : String
  repositoriesJson : Commit → Except Err (Option (Dict RepoData))
  mirrorsJson : Commit → Option (List Template)
  signedTargets : Commit → Option (List String) → Dict TargetData
  instantiate : String → String → List String → Dict JVal → Except String GitRepo

/-- The per-path loop body of load_repositories (repositoriesdb.py, the
for path, repo_data in repositories.items() loop): resolve urls first, then
skip non-targets when only_load_targets holds, then merge custom data and
instantiate, storing the handle. A raised error stops the loop with the map
populated only by the entries processed before the failure. -/
def loadTargetRepos
    (inst : String → String → List String → Dict JVal → Except String GitRepo)
    (rootDir : String) (targets : Dict TargetData) (onlyLoadTargets : Bool)
    (mirrors : Option (List Template)) :
    List (String × RepoData) → Dict GitRepo → Dict GitRepo × Option Err
  | [], rmap => (rmap, none)
  | (path, repoData) :: rest, rmap =>
    match get_urls mirrors path repoData with
    | .error e => (rmap, some e)
    | .ok urls =>
      if (dget targets path).isNone && onlyLoadTargets then
        loadTargetRepos inst rootDir targets onlyLoadTargets mirrors rest rmap
      else
        let additionalInfo :=
          (get_custom_data repoData.custom (dget targets path)).1
        match inst rootDir path urls additionalInfo with
        | .error msg =>
            (rmap, some (.repositoryInstantiation (rootDir ++ "/" ++ path) msg))
        | .ok repo =>
            loadTargetRepos inst rootDir targets onlyLoadTargets mirrors rest
              (dset rmap path repo)

/-- The result of one call of load_repositories or load_dependencies: the
per-auth-repo commit store after the call (the Python globals keep all
mutations performed before an exception), the metadata reads performed, and
the exception that propagated to the caller, if any. -/
structure LoadResult (α : Type) where
  store : Dict (Dict α)
  trace : List ReadEvent
  error : Option Err
deriving DecidableEq, Repr

/-- The body of the for commit in commits loop of load_repositories: an
already-loaded commit is skipped before any read; otherwise the commit entry
is stored (initially empty, it stays partial if the pass raises) and the
metadata is read and processed. -/
def loadRepositoriesCommit (env : RepoEnv) (rootDir : String)
    (onlyLoadTargets : Bool) (roles : Option (List String))
    (st : Dict (Dict GitRepo)) (commit : Commit) :
    Dict (Dict GitRepo) × List ReadEvent × Option Err :=
  if (dget st commit).isSome then (st, [], none)
  else
    match env.repositoriesJson commit with
    | .error e => (dset st commit [], [.repositoriesJson commit], some e)
    | .ok none => (dset st commit [], [.repositoriesJson commit], none)
    | .ok (some repositories) =>
      let mirrors := env.mirrorsJson commit
      let targets := env.signedTargets commit roles
      let res :=
        loadTargetRepos env.instantiate rootDir targets onlyLoadTargets mirrors
          repositories []
      (dset st commit res.1,
        [.repositoriesJson commit, .mirrorsJson commit, .signedTargets commit],
        res.2)

/-- The commit loop of load_repositories: commits are processed in order and
the first raised exception propagates, keeping the store mutations made so
far. -/
def loadRepositoriesLoop (env : RepoEnv) (rootDir : String)
    (onlyLoadTargets : Bool) (roles : Option (List String)) :
    List Commit → Dict (Dict GitRepo) → List ReadEvent → LoadResult GitRepo
  | [], st, tr => ⟨st, tr, none⟩
  | c :: rest, st, tr =>
    let res := loadRepositoriesCommit env rootDir onlyLoadTargets roles st c
    match res.2.2 with
    | some e => ⟨res.1, tr ++ res.2.1, some e⟩
    | none => loadRepositoriesLoop env rootDir onlyLoadTargets roles rest res.1
        (tr ++ res.2.1)

/-- Embedding of load_repositories (repositoriesdb.py), for one authentication
repository: st is the slice of the global _repositories_dict for this
repository (the leading if path not in dict line makes the slice total).
Omitted commits default to the HEAD commit, with an early log-and-return when
HEAD is undefined; a nonempty roles argument forces only_load_targets. -/
def load_repositories (env : RepoEnv) (st : Dict (Dict GitRepo))
    (rootDirArg : Option String) (onlyLoadTargets : Bool)
    (commitsArg : Option (List Commit)) (roles : Option (List String)) :
    LoadResult GitRepo :=
  let commitsResolved : Option (List Commit) :=
    match commitsArg with
    | some cs => some cs
    | none =>
      match env.headCommit with
      | some h => some [h]
      | none => none
  match commitsResolved with
  | none => ⟨st, [], none⟩
  | some commits =>
    let rootDir := rootDirArg.getD env.defaultRootDir
    let olt :=
      match roles with
      | some rs => if rs.isEmpty then onlyLoadTargets else true
      | none => onlyLoadTargets
    loadRepositoriesLoop env rootDir olt roles commits st []

/-- Message of the Python TypeError raised by list indexing with a string
key, as in hosts-accumulator assignment when the accumulator is a list. -/
def listIndexTypeErrorMsg : String :=
  "list indices must be integers or slices, not str"

/-- Message of the Python TypeError raised by concatenating a dict to a
list with the plus operator. -/
def concatListDictTypeErrorMsg : String :=
  "can only concatenate list (not dict) to list"

/-- Python list plus dict, as in hosts-at-commit + loaded-hosts-json
(load_dependencies): list concatenation accepts only a list right operand,
and the hosts.json content is a mapping, so the addition always raises
TypeError. The ok branch is kept in the callers for the shape of the source
but is unreachable. -/
def pyConcatListDict {α : Type} (_l : List α) (_d : HostsInfo) :
    Except Err (List α) :=
  .error (.typeError concatListDictTypeErrorMsg)

/-- The observable behavior of one authentication repository for
load_dependencies: ownHostsJson renders _load_hosts_json on the repository
itself (it raises InvalidOrMissingMetadataError when hosts.json is missing or
invalid), childHostsJson renders _load_hosts_json on a contained repository
identified by its path, dependenciesJson renders _load_dependencies_json, and
instantiateAuth the auth_class construction (with a valid subclass policy). -/
structure DepEnv where
  headCommit : Option Commit
  defaultRootDir : String
  dependenciesJson : Commit → Except Err (Option (Dict RepoData))
  mirrorsJson : Commit → Option (List Template)
  ownHostsJson : Commit → Except Err HostsInfo
  childHostsJson : String → Commit → Except Err HostsInfo
  instantiateAuth : String → String → List String → Dict JVal → Except String AuthRepo

/-- The hosts accumulator of load_dependencies:
dict(ancestor_hosts) when ancestor_hosts is supplied, and the plain empty
Python list otherwise. In the list case no assignment ever succeeds (indexing
a list with a commit sha raises TypeError), so the list stays empty and
carries no payload here. -/
inductive HostsAcc where
  | fromAncestors (d : Dict (List HostsInfo))
  | emptyList
deriving Repr

/-- The per-path loop body of load_dependencies (the
for path, repo_data in dependencies.items() loop). A RepositoryInstantiationError
from url resolution is caught: the commit dict is cleared and the loop breaks
without an error. An instantiation failure is re-raised as
RepositoryInstantiationError. A successfully instantiated repository next has
its hosts attached from hostsAtCommit + its own hosts.json; that plus raises
TypeError (see pyConcatListDict), so the branch that stores the repository is
unreachable. -/
def loadDependencyRepos
    (instAuth : String → String → List String → Dict JVal → Except String AuthRepo)
    (childHostsJson : String → Commit → Except Err HostsInfo)
    (rootDir : String) (mirrors : Option (List Template))
    (hostsAtCommit : List HostsInfo) (commit : Commit) :
    List (String × RepoData) → Dict AuthRepo →
      Dict AuthRepo × List ReadEvent × Option Err
  | [], dmap => (dmap, [], none)
  | (path, repoData) :: rest, dmap =>
    match get_urls mirrors path repoData with
    | .error _ => ([], [], none)
    | .ok urls =>
      let additionalInfo := (get_custom_data repoData.custom none).1
      match instAuth rootDir path urls additionalInfo with
      | .error msg =>
          (dmap, [], some (.repositoryInstantiation (rootDir ++ "/" ++ path) msg))
      | .ok repo =>
        match childHostsJson path commit with
        | .error e => (dmap, [.childHostsJson path commit], some e)
        | .ok childHosts =>
          match pyConcatListDict hostsAtCommit childHosts with
          | .error e => (dmap, [.childHostsJson path commit], some e)
          | .ok combined =>
            let repo2 := { repo with hosts := (set_hosts_of_repo repo.name combined).1 }
            let res :=
              loadDependencyRepos instAuth childHostsJson rootDir mirrors
                hostsAtCommit commit rest (dset dmap path repo2)
            (res.1, .childHostsJson path commit :: res.2.1, res.2.2)

/-- The body of the for commit in commits loop of load_dependencies. The
hosts-accumulator check and assignment run before the memoization check and
before the commit entry is stored; with no ancestor hosts the assignment
raises TypeError there. The rest mirrors loadRepositoriesCommit, reading
dependencies.json instead. -/
def loadDependenciesCommit (env : DepEnv) (rootDir : String) (acc : HostsAcc)
    (st : Dict (Dict AuthRepo)) (commit : Commit) :
    HostsAcc × Dict (Dict AuthRepo) × List ReadEvent × Option Err :=
  let inHosts : Bool :=
    match acc with
    | .fromAncestors d => (dget d commit).isSome
    | .emptyList => false
  let hostsRes : (List ReadEvent × Err) ⊕ (HostsAcc × List ReadEvent) :=
    if inHosts then .inr (acc, [])
    else
      match env.ownHostsJson commit with
      | .error e => .inl ([.ownHostsJson commit], e)
      | .ok hj =>
        match acc with
        | .emptyList =>
            .inl ([.ownHostsJson commit], .typeError listIndexTypeErrorMsg)
        | .fromAncestors d =>
            .inr (.fromAncestors (dset d commit [hj]), [.ownHostsJson commit])
  match hostsRes with
  | .inl (tr, e) => (acc, st, tr, some e)
  | .inr (acc2, tr) =>
    if (dget st commit).isSome then (acc2, st, tr, none)
    else
      match env.dependenciesJson commit with
      | .error e =>
          (acc2, dset st commit [], tr ++ [.dependenciesJson commit], some e)
      | .ok none =>
          (acc2, dset st commit [], tr ++ [.dependenciesJson commit], none)
      | .ok (some deps) =>
        let hostsAtCommit : List HostsInfo :=
          match acc2 with
          | .fromAncestors d => (dget d commit).getD []
          | .emptyList => []
        let mirrors := env.mirrorsJson commit
        let res :=
          loadDependencyRepos env.instantiateAuth env.childHostsJson rootDir
            mirrors hostsAtCommit commit deps []
        (acc2, dset st commit res.1,
          tr ++ [.dependenciesJson commit, .mirrorsJson commit] ++ res.2.1,
          res.2.2)

/-- The commit loop of load_dependencies. -/
def loadDependenciesLoop (env : DepEnv) (rootDir : String) :
    List Commit → HostsAcc → Dict (Dict AuthRepo) → List ReadEvent →
      LoadResult AuthRepo
  | [], _, st, tr => ⟨st, tr, none⟩
  | c :: rest, acc, st, tr =>
    let res := loadDependenciesCommit env rootDir acc st c
    match res.2.2.2 with
    | some e => ⟨res.2.1, tr ++ res.2.2.1, some e⟩
    | none => loadDependenciesLoop env rootDir rest res.1 res.2.1 (tr ++ res.2.2.1)

/-- Embedding of load_dependencies (repositoriesdb.py), for one authentication
repository: st is the slice of the global _dependencies_dict for this
repository. Omitted commits default to the HEAD commit with an early return
when HEAD is undefined; the hosts accumulator comes from ancestor_hosts, or
is the empty Python list when ancestor_hosts is omitted. -/
def load_dependencies (env : DepEnv) (st : Dict (Dict AuthRepo))
    (rootDirArg : Option String) (commitsArg : Option (List Commit))
    (ancestorHosts : Option (Dict (List HostsInfo))) : LoadResult AuthRepo :=
  let commitsResolved : Option (List Commit) :=
    match commitsArg with
    | some cs => some cs
    | none =>
      match env.headCommit with
      | some h => some [h]
      | none => none
  match commitsResolved with
  | none => ⟨st, [], none⟩
  | some commits =>
    let rootDir := rootDirArg.getD env.defaultRootDir
    let hosts : HostsAcc :=
      match ancestorHosts with
      | some d => .fromAncestors d
      | none => .emptyList
    loadDependenciesLoop env rootDir commits hosts st []

/-- The commit loop of _get_deduplicated_target_or_auth_repositotries: every
listed commit must be present in the store, and its stored map is overlaid
onto the accumulator by per-entry assignment (dupdate). -/
def dedupLoop {α : Type} (allRepositories : Dict (Dict α)) :
    List Commit → Dict α → Except Err (Dict α)
  | [], acc => .ok acc
  | c :: rest, acc =>
    match dget allRepositories c with
    | none =>
        .error (.repositoriesNotFound
          "repositories defined in authentication repository at revision have not been loaded")
    | some m => dedupLoop allRepositories rest (dupdate acc m)

/-- Embedding of _get_deduplicated_target_or_auth_repositotries
(repositoriesdb.py): loadedRepositoriesDict is the chosen global store
(_repositories_dict or _dependencies_dict). Each listed commit must have been
loaded; the per-commit maps are overlaid in commit order by repeated
assignment. -/
def get_deduplicated_target_or_auth_repositotries {α : Type}
    (loadedRepositoriesDict : Dict (Dict (Dict α))) (authRepoPath : String)
    (commits : List Commit) : Except Err (Dict α) :=
  match dget loadedRepositoriesDict authRepoPath with
  | none =>
      .error (.repositoriesNotFound
        "repositories defined in authentication repository have not been loaded")
  | some allRepositories => dedupLoop allRepositories commits []

/-- Embedding of get_deduplicated_repositories: the helper applied to the
target-repository store. -/
def get_deduplicated_repositories {α : Type}
    (repositoriesDict : Dict (Dict (Dict α))) (authRepoPath : String)
    (commits : List Commit) : Except Err (Dict α) :=
  get_deduplicated_target_or_auth_repositotries repositoriesDict authRepoPath
    commits

/-- Embedding of get_deduplicated_auth_repositories: the helper applied to the
dependency store. -/
def get_deduplicated_auth_repositories {α : Type}
    (dependenciesDict : Dict (Dict (Dict α))) (authRepoPath : String)
    (commits : List Commit) : Except Err (Dict α) :=
  get_deduplicated_target_or_auth_repositotries dependenciesDict authRepoPath
    commits

/-- The accumulator overlay the deduplication spec sentence describes, written
from the spec words for comparison: iterate the commits in the given order and
overlay each stored per-commit map onto the accumulator. -/
def overlayStoredMaps {α : Type} (allRepositories : Dict (Dict α))
    (commits : List Commit) : Dict α :=
  commits.foldl (fun acc c => dupdate acc ((dget allRepositories c).getD [])) []

/-- The output a hook script printed, already parsed from JSON: its optional
transient and persistent sub-mappings. none models empty output. -/
structure ScriptOutput where
  transient : Option (Dict JVal)
  persistent : Option (Dict JVal)
deriving DecidableEq, Repr

/-- One discovered hook script and the behavior of running it. The scripts of
a bucket are given in the sorted order the source iterates. -/
structure Script where
  path : String
  output : Option ScriptOutput
deriving DecidableEq, Repr

/-- The externally visible actions of execute_scripts: running one script,
the print statement inside _safely_save_to_disk, and a write of a file (never
emitted by the code as it stands). -/
inductive Effect where
  | runScript (path : String)
  | printShouldSave (path : String)
  | writeFile (path : String)
deriving DecidableEq, Repr

/-- The persistent state file name of lifecycle_handlers.py. -/
def PERSISTENT_FILE_NAME : String := "last_successful_commits.json"

/-- Embedding of _safely_save_to_disk (lifecycle_handlers.py): its whole body
is a print statement; no file is written (the trailing comment defers the
implementation). -/
def safely_save_to_disk (path : String) (_data : Dict JVal) : List Effect :=
  [.printShouldSave path]

/-- The script loop of execute_scripts: each script runs on the current
context; non-empty output updates the transient and persistent mappings and
_safely_save_to_disk is called on the persistent mapping before the next
script runs. -/
def executeScriptsLoop (persistentPath : String) :
    List Script → Dict JVal → Dict JVal → (Dict JVal × Dict JVal) × List Effect
  | [], t, p => ((t, p), [])
  | s :: rest, t, p =>
    match s.output with
    | none =>
      let res := executeScriptsLoop persistentPath rest t p
      (res.1, .runScript s.path :: res.2)
    | some out =>
      let t2 := match out.transient with
                | some td => dupdate t td
                | none => t
      let p2 := match out.persistent with
                | some pd => dupdate p pd
                | none => p
      let res := executeScriptsLoop persistentPath rest t2 p2
      (res.1, .runScript s.path :: (safely_save_to_disk persistentPath p2 ++ res.2))

/-- Embedding of execute_scripts (lifecycle_handlers.py), restricted to the
transient and persistent components of the context (the only parts the loop
changes). The persistent path is the file last_successful_commits.json at the
root directory of the authentication repository. -/
def execute_scripts (rootDir : String) (scripts : List Script)
    (transient persistent : Dict JVal) : (Dict JVal × Dict JVal) × List Effect :=
  let persistentPath := rootDir ++ "/" ++ PERSISTENT_FILE_NAME
  executeScriptsLoop persistentPath scripts transient persistent

/-- Store fixture for the deduplication witness: one authentication repository
with two loaded commits, both declaring path a/b with different handles. -/
def dedupFixture : Dict (Dict (Dict String)) :=
  [("auth", [("c1", [("a/b", "U1")]), ("c2", [("a/b", "U2")])])]

/-- Environment fixture for the idempotence witness: repositories.json is
absent at every revision, so a first load marks the commit visited with an
empty map. -/
def envIdemA : RepoEnv where
  headCommit := none
  defaultRootDir := "lib"
  repositoriesJson := fun _ => .ok none
  mirrorsJson := fun _ => none
  signedTargets := fun _ _ => []
  instantiate := fun rd p us cu => .ok ⟨rd, p, us, cu⟩

/-- Second environment for the idempotence witness: every metadata read now
fails, so any read performed by the second call would surface as an error. -/
def envIdemB : RepoEnv where
  headCommit := none
  defaultRootDir := "lib2"
  repositoriesJson := fun _ =>
    .error (.invalidOrMissingMetadata "repositories.json not a valid json")
  mirrorsJson := fun _ => none
  signedTargets := fun _ _ => []
  instantiate := fun _ _ _ _ => .error "boom"

/-- A factory that always succeeds, recording the constructor arguments. -/
def instOK : String → String → List String → Dict JVal → Except String GitRepo :=
  fun rd p us cu => .ok ⟨rd, p, us, cu⟩

/-- Environment fixture for the only-load-targets counterexample: commit c1
declares the malformed path badpath (no explicit urls), mirrors exist, and no
path is a signed target. -/
def envNonTarget : RepoEnv where
  headCommit := none
  defaultRootDir := "lib"
  repositoriesJson := fun c =>
    if c = "c1" then .ok (some [("badpath", ⟨none, none⟩)]) else .ok none
  mirrorsJson := fun _ => some [[.lit "m"]]
  signedTargets := fun _ _ => []
  instantiate := instOK

/-- Environment fixture for the dependency url-error counterexample: commit
c1 declares the malformed dependency path badpath, and mirrors.json is
absent, so url resolution fails. -/
def envDepSwallow : DepEnv where
  headCommit := none
  defaultRootDir := "lib"
  dependenciesJson := fun c =>
    if c = "c1" then .ok (some [("badpath", ⟨none, none⟩)]) else .ok none
  mirrorsJson := fun _ => none
  ownHostsJson := fun _ => .ok []
  childHostsJson := fun _ _ => .ok []
  instantiateAuth := fun rd p us cu => .ok ⟨rd, p, us, cu, []⟩

/-- Environment fixture for the missing-ancestor-hosts witness: all metadata
reads succeed trivially and HEAD is defined. -/
def envHostsPlain : DepEnv where
  headCommit := some "h1"
  defaultRootDir := "lib"
  dependenciesJson := fun _ => .ok none
  mirrorsJson := fun _ => none
  ownHostsJson := fun _ => .ok []
  childHostsJson := fun _ _ => .ok []
  instantiateAuth := fun rd p us cu => .ok ⟨rd, p, us, cu, []⟩

/-! Theorems. -/

@[simp] theorem dkeys_nil {α : Type} : dkeys ([] : Dict α) = [] := rfl

@[simp] theorem dkeys_cons {α : Type} (k : String) (v : α) (d : Dict α) :
    dkeys ((k, v) :: d) = k :: dkeys d := rfl

theorem dget_dset {α : Type} (d : Dict α) (k q : String) (v : α) :
    dget (dset d k v) q = if k = q then some v else dget d q := by
  induction d with
  | nil => simp [dset, dget]
  | cons e rest ih =>
    obtain ⟨k', v'⟩ := e
    by_cases hk : k' = k
    · subst hk
      by_cases hq : k' = q <;> simp [dset, dget, hq]
    · by_cases hq : k' = q
      · subst hq
        have : ¬ k = k' := fun h => hk h.symm
        simp [dset, dget, hk, this]
      · simp [dset, dget, hk, hq, ih]

theorem mem_dkeys_dset {α : Type} (d : Dict α) (k q : String) (v : α) :
    q ∈ dkeys (dset d k v) ↔ q = k ∨ q ∈ dkeys d := by
  induction d with
  | nil => simp [dset]
  | cons e rest ih =>
    obtain ⟨k', v'⟩ := e
    by_cases hk : k' = k
    · subst hk
      simp [dset]
    · simp only [dset, if_neg hk, dkeys_cons, List.mem_cons, ih]
      tauto

theorem dget_eq_none_of_not_mem_dkeys {α : Type} (d : Dict α) (q : String)
    (h : q ∉ dkeys d) : dget d q = none := by
  induction d with
  | nil => rfl
  | cons e rest ih =>
    obtain ⟨k, v⟩ := e
    simp only [dkeys_cons, List.mem_cons] at h
    push_neg at h
    have hkq : ¬ k = q := fun hkq => h.1 hkq.symm
    simp [dget, hkq, ih h.2]

theorem dget_dupdate {α : Type} (t : Dict α) (d : Dict α) (q : String)
    (ht : (dkeys t).Nodup) :
    dget (dupdate d t) q = (dget t q).or (dget d q) := by
  induction t generalizing d with
  | nil => simp [dupdate, dget]
  | cons e rest ih =>
    obtain ⟨k, v⟩ := e
    simp only [dkeys, List.map_cons, List.nodup_cons] at ht
    have step : dupdate d ((k, v) :: rest) = dupdate (dset d k v) rest := rfl
    rw [step, ih _ ht.2]
    by_cases hq : k = q
    · subst hq
      have hnone : dget rest k = none :=
        dget_eq_none_of_not_mem_dkeys rest k (by simpa [dkeys] using ht.1)
      simp [dget, hnone, dget_dset]
    · simp [dget, hq, dget_dset]

theorem dget_dupdate_mem {α : Type} (t : Dict α) (d : Dict α) (q : String)
    (v : α) (h : dget (dupdate d t) q = some v) :
    (q, v) ∈ t ∨ dget d q = some v := by
  induction t generalizing d with
  | nil => exact Or.inr h
  | cons e rest ih =>
    obtain ⟨k, w⟩ := e
    have step : dupdate d ((k, w) :: rest) = dupdate (dset d k w) rest := rfl
    rw [step] at h
    rcases ih _ h with hmem | hbase
    · exact Or.inl (List.mem_cons_of_mem _ hmem)
    · rw [dget_dset] at hbase
      by_cases hq : k = q
      · subst hq
        simp at hbase
        subst hbase
        exact Or.inl (List.mem_cons_self _ _)
      · simp [hq] at hbase
        exact Or.inr hbase

theorem mem_dkeys_dupdate {α : Type} (t : Dict α) (d : Dict α) (q : String) :
    q ∈ dkeys (dupdate d t) ↔ q ∈ dkeys d ∨ q ∈ dkeys t := by
  induction t generalizing d with
  | nil => simp [dupdate, dkeys]
  | cons e rest ih =>
    obtain ⟨k, v⟩ := e
    have step : dupdate d ((k, v) :: rest) = dupdate (dset d k v) rest := rfl
    rw [step, ih]
    simp only [mem_dkeys_dset, dkeys_cons, List.mem_cons]
    tauto

theorem dupdate_append {α : Type} (d l1 l2 : Dict α) :
    dupdate d (l1 ++ l2) = dupdate (dupdate d l1) l2 := by
  simp [dupdate, List.foldl_append]

theorem dupdate_cons {α : Type} (d : Dict α) (k : String) (v : α)
    (t : Dict α) : dupdate d ((k, v) :: t) = dupdate (dset d k v) t := rfl

/-- The inner fold of set_hosts_of_repo over one hosts.json content equals an
update by its claiming entries. -/
theorem set_hosts_inner_fold_eq (name : String) (hi : HostsInfo)
    (acc : Dict (Dict JVal)) :
    hi.foldl
        (fun acc2 entry =>
          if name ∈ entry.2.authRepos then dset acc2 entry.1 entry.2.rest
          else acc2)
        acc
      = dupdate acc (hostClaims name hi) := by
  induction hi generalizing acc with
  | nil => simp [dupdate, hostClaims]
  | cons e rest ih =>
    obtain ⟨k, hd⟩ := e
    by_cases h : name ∈ hd.authRepos
    · simp [hostClaims, List.filter_cons, h, ih, dupdate_cons]
    · simp [hostClaims, List.filter_cons, h, ih]

theorem set_hosts_eq_dupdate (name : String) (hosts : List HostsInfo) :
    (set_hosts_of_repo name hosts).1
      = dupdate [] (hosts.flatMap (hostClaims name)) := by
  have outer : ∀ (hs : List HostsInfo) (acc : Dict (Dict JVal)),
      hs.foldl
          (fun acc hostsInfo =>
            hostsInfo.foldl
              (fun acc2 entry =>
                if name ∈ entry.2.authRepos then dset acc2 entry.1 entry.2.rest
                else acc2)
              acc)
          acc
        = dupdate acc (hs.flatMap (hostClaims name)) := by
    intro hs
    induction hs with
    | nil => intro acc; simp [dupdate]
    | cons hi rest ih =>
      intro acc
      rw [List.foldl_cons, ih, set_hosts_inner_fold_eq, List.flatMap_cons,
        dupdate_append]
  exact outer hosts []

/-- Membership in the claiming entries of one hosts.json content. -/
theorem mem_hostClaims (name : String) (hi : HostsInfo) (h : String)
    (d : Dict JVal) :
    (h, d) ∈ hostClaims name hi ↔
      ∃ hd, (h, hd) ∈ hi ∧ name ∈ hd.authRepos ∧ d = hd.rest := by
  simp only [hostClaims, List.mem_map, List.mem_filter, decide_eq_true_eq]
  constructor
  · rintro ⟨e, ⟨hmem, hclaim⟩, heq⟩
    have h1 : e.1 = h := congrArg Prod.fst heq
    have h2 : e.2.rest = d := congrArg Prod.snd heq
    refine ⟨e.2, ?_, hclaim, h2.symm⟩
    rw [← h1]
    simpa using hmem
  · rintro ⟨hd, hmem, hclaim, hrest⟩
    exact ⟨(h, hd), ⟨hmem, hclaim⟩, by simp [hrest]⟩

/-- Key membership in the claiming entries of one hosts.json content. -/
theorem mem_dkeys_hostClaims (name : String) (hi : HostsInfo) (h : String) :
    h ∈ dkeys (hostClaims name hi) ↔
      ∃ hd, (h, hd) ∈ hi ∧ name ∈ hd.authRepos := by
  constructor
  · intro hmem
    simp only [dkeys, List.mem_map] at hmem
    obtain ⟨⟨h1, d⟩, hmem, hfst⟩ := hmem
    simp only at hfst
    subst hfst
    obtain ⟨hd, hmem2, hclaim, _⟩ := (mem_hostClaims name hi h1 d).1 hmem
    exact ⟨hd, hmem2, hclaim⟩
  · rintro ⟨hd, hmem, hclaim⟩
    simp only [dkeys, List.mem_map]
    exact ⟨(h, hd.rest), (mem_hostClaims name hi h hd.rest).2
      ⟨hd, hmem, hclaim, rfl⟩, rfl⟩

/-- C9: for every repository name and every list of hosts.json declarations,
set_hosts_of_repo resolves the host set to exactly the hosts whose membership
list holds the name: a host name is a key of the result exactly when some
supplied declaration claims the repository under that host; every stored host
data comes from such a claiming entry with the membership field removed; when
no host claims the repository the result is empty and the warning fires; and
the warning fires exactly on the empty result (the operation is total and
never fails). -/
theorem set_hosts_of_repo_resolution (name : String) (hosts : List HostsInfo) :
    (∀ h, h ∈ dkeys (set_hosts_of_repo name hosts).1 ↔
      ∃ hi ∈ hosts, ∃ hd, (h, hd) ∈ hi ∧ name ∈ hd.authRepos)
  ∧ (∀ h d, dget (set_hosts_of_repo name hosts).1 h = some d →
      ∃ hi ∈ hosts, ∃ hd, (h, hd) ∈ hi ∧ name ∈ hd.authRepos ∧ d = hd.rest)
  ∧ ((∀ hi ∈ hosts, ∀ e ∈ hi, name ∉ e.2.authRepos) →
      (set_hosts_of_repo name hosts).1 = []
      ∧ (set_hosts_of_repo name hosts).2 = true)
  ∧ ((set_hosts_of_repo name hosts).2 = true ↔
      (set_hosts_of_repo name hosts).1 = []) := by
  refine ⟨?_, ?_, ?_, ?_⟩
  · intro h
    rw [set_hosts_eq_dupdate, mem_dkeys_dupdate]
    simp only [dkeys_nil, List.not_mem_nil, false_or]
    constructor
    · intro hmem
      have : h ∈ dkeys (hosts.flatMap (hostClaims name)) := hmem
      simp only [dkeys, List.mem_map, List.mem_flatMap] at this
      obtain ⟨⟨h1, d⟩, ⟨hi, hhi, hcl⟩, hfst⟩ := this
      simp only at hfst
      subst hfst
      obtain ⟨hd, hmem2, hclaim⟩ := (mem_dkeys_hostClaims name hi h1).1
        (by simp only [dkeys, List.mem_map]; exact ⟨(h1, d), hcl, rfl⟩)
      exact ⟨hi, hhi, hd, hmem2, hclaim⟩
    · rintro ⟨hi, hhi, hd, hmem, hclaim⟩
      have : h ∈ dkeys (hostClaims name hi) :=
        (mem_dkeys_hostClaims name hi h).2 ⟨hd, hmem, hclaim⟩
      simp only [dkeys, List.mem_map] at this ⊢
      obtain ⟨e, he, hfst⟩ := this
      exact ⟨e, List.mem_flatMap.2 ⟨hi, hhi, he⟩, hfst⟩
  · intro h d hget
    rw [set_hosts_eq_dupdate] at hget
    rcases dget_dupdate_mem _ _ _ _ hget with hmem | hnone
    · obtain ⟨hi, hhi, hcl⟩ := List.mem_flatMap.1 hmem
      obtain ⟨hd, hmem2, hclaim, hrest⟩ := (mem_hostClaims name hi h d).1 hcl
      exact ⟨hi, hhi, hd, hmem2, hclaim, hrest⟩
    · cases hnone
  · intro hnone
    have hempty : (set_hosts_of_repo name hosts).1 = [] := by
      rw [set_hosts_eq_dupdate]
      have hflat : hosts.flatMap (hostClaims name) = [] := by
        rw [List.flatMap_eq_nil_iff]
        intro hi hhi
        rw [hostClaims, List.map_eq_nil_iff, List.filter_eq_nil_iff]
        intro e he
        simpa using hnone hi hhi e he
      rw [hflat]
      rfl
    refine ⟨hempty, ?_⟩
    show (set_hosts_of_repo name hosts).1.isEmpty = true
    rw [hempty]
    rfl
  · show (set_hosts_of_repo name hosts).1.isEmpty = true ↔ _
    rw [List.isEmpty_iff]

/-- C9 witness: the theorem applied at the spec example inputs: ns/repo is
claimed by host h1 in an ancestor declaration and by h2 in its own, and a
repository claimed nowhere resolves to the empty host set with the warning. -/
theorem set_hosts_of_repo_resolution_witness :
    ("h1" ∈ dkeys (set_hosts_of_repo "ns/repo"
        [[("h1", ⟨["ns/repo"], [("loc", JVal.str "eu")]⟩)],
         [("h2", ⟨["ns/repo", "other"], []⟩)]]).1)
  ∧ ("h2" ∈ dkeys (set_hosts_of_repo "ns/repo"
        [[("h1", ⟨["ns/repo"], [("loc", JVal.str "eu")]⟩)],
         [("h2", ⟨["ns/repo", "other"], []⟩)]]).1)
  ∧ (set_hosts_of_repo "ghost"
        [[("h1", ⟨["ns/repo"], []⟩)]]).1 = []
  ∧ (set_hosts_of_repo "ghost"
        [[("h1", ⟨["ns/repo"], []⟩)]]).2 = true := by
  refine ⟨?_, ?_, ?_, ?_⟩
  · exact ((set_hosts_of_repo_resolution "ns/repo" _).1 "h1").2
      ⟨[("h1", ⟨["ns/repo"], [("loc", JVal.str "eu")]⟩)], by simp,
        ⟨["ns/repo"], [("loc", JVal.str "eu")]⟩, by simp, by simp⟩
  · exact ((set_hosts_of_repo_resolution "ns/repo" _).1 "h2").2
      ⟨[("h2", ⟨["ns/repo", "other"], []⟩)], by simp,
        ⟨["ns/repo", "other"], []⟩, by simp, by simp⟩
  · exact ((set_hosts_of_repo_resolution "ghost" _).2.2.1 (by decide)).1
  · exact ((set_hosts_of_repo_resolution "ghost" _).2.2.1 (by decide)).2

/-- C7: for a lifecycle run at stage REPO the script buckets execute in
exactly this order: for event CHANGED the changed-named scripts, then the
succeeded-named scripts, then the completed-named scripts, and the
failed-named scripts never run; for UNCHANGED, unchanged then succeeded then
completed; for SUCCEEDED, succeeded then completed; for FAILED, only failed
then completed. -/
theorem repo_event_bucket_order :
    handle_event_buckets .changed = [.changed, .succeeded, .completed]
  ∧ handle_event_buckets .unchanged = [.unchanged, .succeeded, .completed]
  ∧ handle_event_buckets .succeeded = [.succeeded, .completed]
  ∧ handle_event_buckets .failed = [.failed, .completed]
  ∧ Event.failed ∉ handle_event_buckets .changed := by
  decide

/-- C5: url resolution case analysis: explicit urls are returned verbatim;
with no urls and no mirror templates a RepositoryInstantiationError names the
repository path; with mirrors but a path that does not split into exactly two
segments on the slash a RepositoryInstantiationError is raised; otherwise all
mirror templates are rendered with the two path segments, preserving mirror
order. -/
theorem get_urls_cases (mirrors : Option (List Template)) (p : String)
    (d : RepoData) :
    (∀ us, d.urls = some us → get_urls mirrors p d = .ok us)
  ∧ (d.urls = none → mirrors = none →
      ∃ msg, get_urls mirrors p d = .error (.repositoryInstantiation p msg))
  ∧ (∀ ms, d.urls = none → mirrors = some ms → (pySplit '/' p).length ≠ 2 →
      ∃ msg, get_urls mirrors p d = .error (.repositoryInstantiation p msg))
  ∧ (∀ ms org repo, d.urls = none → mirrors = some ms →
      pySplit '/' p = [org, repo] →
      get_urls mirrors p d = .ok (ms.map (fun m => renderTemplate m org repo))) := by
  refine ⟨?_, ?_, ?_, ?_⟩
  · intro us h
    simp [get_urls, h]
  · intro h1 h2
    exact ⟨"targets/mirrors.json does not exists or is not valid and no urls specified in targets/repositories.json",
      by simp [get_urls, h1, h2]⟩
  · intro ms h1 h2 hlen
    refine ⟨"repository name is not in the org_name/repo_name format", ?_⟩
    rcases hsp : pySplit '/' p with _ | ⟨a, _ | ⟨b, _ | ⟨c, rest3⟩⟩⟩ <;>
      first
        | (exfalso; apply hlen; rw [hsp]; rfl)
        | simp [get_urls, h1, h2, hsp]
  · intro ms org repo h1 h2 hsp
    simp [get_urls, h1, h2, hsp]

/-- C5 witness: the theorem applied at the three concrete inputs of the spec
examples: a mirror template rendered for path org/name, a malformed path with
mirrors present, and a path with neither urls nor mirrors. -/
theorem get_urls_cases_witness :
    get_urls
        (some [[.lit "https://git.example.com/", .orgName, .lit "/", .repoName,
          .lit ".git"]])
        "org/name" ⟨none, none⟩
      = .ok ["https://git.example.com/org/name.git"]
  ∧ (∃ msg, get_urls (some [[.lit "x"]]) "noslash" ⟨none, none⟩
      = .error (.repositoryInstantiation "noslash" msg))
  ∧ (∃ msg, get_urls none "a/b" ⟨none, none⟩
      = .error (.repositoryInstantiation "a/b" msg)) := by
  refine ⟨?_, ?_, ?_⟩
  · have h :=
      (get_urls_cases
        (some [[.lit "https://git.example.com/", .orgName, .lit "/", .repoName,
          .lit ".git"]])
        "org/name" ⟨none, none⟩).2.2.2
        [[.lit "https://git.example.com/", .orgName, .lit "/", .repoName,
          .lit ".git"]]
        "org" "name" rfl rfl (by decide)
    rw [h]
    rfl
  · exact (get_urls_cases (some [[.lit "x"]]) "noslash" ⟨none, none⟩).2.2.1
      [[.lit "x"]] rfl rfl (by decide)
  · exact (get_urls_cases none "a/b" ⟨none, none⟩).2.1 rfl rfl

/-- C6 counterexample: the claim says the custom-data merge does not mutate
either input mapping; at this concrete input (the spec merge example) the
repository custom mapping after the call differs from the one before it,
because custom.update(target_custom) updates the aliased dict in place. -/
theorem get_custom_data_mutates_repo_cex :
    (get_custom_data
        (some [("type", JVal.str "html"), ("owner", JVal.str "x")])
        (some ⟨some [("type", JVal.str "xml")]⟩)).2
      ≠ some [("type", JVal.str "html"), ("owner", JVal.str "x")] := by
  decide

/-- C6 amended: the returned mapping starts from the repository-declared data
overwritten key-by-key by the target-declared data (target wins, repository
keys survive, target keys are added); however, when both mappings are present
the repository custom mapping is updated in place to the merged result (the
result aliases it), and with no target custom data the repository mapping is
returned unchanged. -/
theorem get_custom_data_merge_amended (repoCustom : Option (Dict JVal))
    (target : Option TargetData) :
    (∀ tc, target.bind TargetData.custom = some tc → (dkeys tc).Nodup →
      ∀ k, dget (get_custom_data repoCustom target).1 k
        = ((dget tc k).or (dget (repoCustom.getD []) k)))
  ∧ (target.bind TargetData.custom = none →
      (get_custom_data repoCustom target).1 = repoCustom.getD []
      ∧ (get_custom_data repoCustom target).2 = repoCustom)
  ∧ (∀ tc, target.bind TargetData.custom = some tc →
      (get_custom_data repoCustom target).2
        = repoCustom.map (fun _ => (get_custom_data repoCustom target).1)) := by
  refine ⟨?_, ?_, ?_⟩
  · intro tc htc hnd k
    simp only [get_custom_data, htc]
    exact dget_dupdate tc _ k hnd
  · intro htc
    simp [get_custom_data, htc]
  · intro tc htc
    simp [get_custom_data, htc]

/-- C6 amended witness: the merge theorem applied at the spec example; target
value wins on the shared key and the repository-only key survives. -/
theorem get_custom_data_merge_amended_witness :
    dget (get_custom_data
        (some [("type", JVal.str "html"), ("owner", JVal.str "x")])
        (some ⟨some [("type", JVal.str "xml")]⟩)).1 "type"
      = some (JVal.str "xml")
  ∧ dget (get_custom_data
        (some [("type", JVal.str "html"), ("owner", JVal.str "x")])
        (some ⟨some [("type", JVal.str "xml")]⟩)).1 "owner"
      = some (JVal.str "x") := by
  constructor
  · have h := (get_custom_data_merge_amended
      (some [("type", JVal.str "html"), ("owner", JVal.str "x")])
      (some ⟨some [("type", JVal.str "xml")]⟩)).1
      [("type", JVal.str "xml")] rfl (by decide) "type"
    rw [h]
    rfl
  · have h := (get_custom_data_merge_amended
      (some [("type", JVal.str "html"), ("owner", JVal.str "x")])
      (some ⟨some [("type", JVal.str "xml")]⟩)).1
      [("type", JVal.str "xml")] rfl (by decide) "owner"
    rw [h]
    rfl

/-- C8: evaluating execute_scripts on a script run that returns persistent
data: _safely_save_to_disk is reached right after the script and before the
next one, but its body only prints; no file-write effect for
last_successful_commits.json (or any file) is ever produced, so the merged
persistent data is not written to the persistent-state file. -/
theorem execute_scripts_never_writes_persistent_file :
    (execute_scripts "authroot"
        [⟨"a.py", some ⟨none, some [("k", JVal.str "v")]⟩⟩, ⟨"b.py", none⟩]
        [] []).2
      = [.runScript "a.py",
         .printShouldSave ("authroot/" ++ PERSISTENT_FILE_NAME),
         .runScript "b.py"]
  ∧ ∀ p, Effect.writeFile p ∉
      (execute_scripts "authroot"
        [⟨"a.py", some ⟨none, some [("k", JVal.str "v")]⟩⟩, ⟨"b.py", none⟩]
        [] []).2 := by
  refine ⟨by decide, ?_⟩
  intro p
  have h : (execute_scripts "authroot"
      [⟨"a.py", some ⟨none, some [("k", JVal.str "v")]⟩⟩, ⟨"b.py", none⟩]
      [] []).2
    = [.runScript "a.py",
       .printShouldSave ("authroot/" ++ PERSISTENT_FILE_NAME),
       .runScript "b.py"] := by decide
  rw [h]
  simp

theorem findSome?_cons_or {α β : Type} (f : α → Option β) (a : α)
    (l : List α) :
    List.findSome? f (a :: l) = (f a).or (List.findSome? f l) := by
  rw [List.findSome?_cons]
  cases f a <;> rfl

theorem findSome?_append_or {α β : Type} (f : α → Option β) (l1 l2 : List α) :
    List.findSome? f (l1 ++ l2)
      = (List.findSome? f l1).or (List.findSome? f l2) := by
  induction l1 with
  | nil => simp [List.findSome?]
  | cons a rest ih =>
    rw [List.cons_append, findSome?_cons_or, findSome?_cons_or, ih,
      Option.or_assoc]

/-- The commit loop of the deduplicator succeeds when every listed commit is
loaded, and computes the left fold of per-commit updates. -/
theorem dedupLoop_ok {α : Type} (ar : Dict (Dict α)) (commits : List Commit)
    (acc : Dict α) (h : ∀ c ∈ commits, (dget ar c).isSome) :
    dedupLoop ar commits acc
      = .ok (commits.foldl (fun a c => dupdate a ((dget ar c).getD [])) acc) := by
  induction commits generalizing acc with
  | nil => simp [dedupLoop]
  | cons c rest ih =>
    obtain ⟨m, hm⟩ := Option.isSome_iff_exists.1 (h c (List.mem_cons_self _ _))
    simp only [dedupLoop, hm, List.foldl_cons, Option.getD_some]
    exact ih _ (fun x hx => h x (List.mem_cons_of_mem _ hx))

/-- Looking up a path in a fold of per-commit updates scans the commits from
the last one backwards. -/
theorem foldl_dupdate_lookup {α : Type} (ar : Dict (Dict α))
    (commits : List Commit) (acc : Dict α) (q : String)
    (hnd : ∀ c ∈ commits, (dkeys ((dget ar c).getD [])).Nodup) :
    dget (commits.foldl (fun a c => dupdate a ((dget ar c).getD [])) acc) q
      = (commits.reverse.findSome?
          (fun c => dget ((dget ar c).getD []) q)).or (dget acc q) := by
  induction commits generalizing acc with
  | nil => simp [List.findSome?]
  | cons c rest ih =>
    rw [List.foldl_cons, ih _ (fun x hx => hnd x (List.mem_cons_of_mem _ hx)),
      List.reverse_cons, findSome?_append_or,
      dget_dupdate _ _ _ (hnd c (List.mem_cons_self _ _))]
    have h1 : List.findSome? (fun c => dget ((dget ar c).getD []) q) [c]
        = dget ((dget ar c).getD []) q := by
      rw [findSome?_cons_or]
      cases dget ((dget ar c).getD []) q <;> rfl
    rw [h1, Option.or_assoc]

/-- Lookup in the spec-side overlay equals the latest-commit-first scan. -/
theorem overlay_lookup {α : Type} (ar : Dict (Dict α)) (commits : List Commit)
    (q : String) (hnd : ∀ c ∈ commits, (dkeys ((dget ar c).getD [])).Nodup) :
    dget (overlayStoredMaps ar commits) q
      = commits.reverse.findSome? (fun c => dget ((dget ar c).getD []) q) := by
  unfold overlayStoredMaps
  rw [foldl_dupdate_lookup ar commits [] q hnd]
  cases commits.reverse.findSome? (fun c => dget ((dget ar c).getD []) q) <;>
    rfl

/-- C1: for a store in which every listed commit has been loaded, both
deduplicating accessors return the map obtained by iterating the commits in
the given order and overlaying each stored per-commit map onto an accumulator,
and for any path the resulting handle is the one stored for the last-listed
commit whose map holds the path (later commits win). The Nodup hypothesis is
the Python-dict invariant that stored maps have unique keys. -/
theorem dedup_overlay_last_wins {α : Type}
    (loadedDict : Dict (Dict (Dict α))) (authPath : String)
    (ar : Dict (Dict α)) (commits : List Commit)
    (hloaded : dget loadedDict authPath = some ar)
    (hall : ∀ c ∈ commits, (dget ar c).isSome)
    (hnd : ∀ c ∈ commits, (dkeys ((dget ar c).getD [])).Nodup) :
    get_deduplicated_repositories loadedDict authPath commits
      = .ok (overlayStoredMaps ar commits)
  ∧ get_deduplicated_auth_repositories loadedDict authPath commits
      = .ok (overlayStoredMaps ar commits)
  ∧ ∀ q, dget (overlayStoredMaps ar commits) q
      = commits.reverse.findSome? (fun c => dget ((dget ar c).getD []) q) := by
  have hded : get_deduplicated_target_or_auth_repositotries loadedDict
      authPath commits = .ok (overlayStoredMaps ar commits) := by
    simp only [get_deduplicated_target_or_auth_repositotries, hloaded]
    exact dedupLoop_ok ar commits [] hall
  exact ⟨hded, hded, fun q => overlay_lookup ar commits q hnd⟩

/-- C1 witness: the theorem applied at the spec example: path a/b resolves to
the handle of c2 for commit order c1 then c2, and to the handle of c1 for the
reversed order. -/
theorem dedup_overlay_last_wins_witness :
    get_deduplicated_repositories dedupFixture "auth" ["c1", "c2"]
      = .ok [("a/b", "U2")]
  ∧ get_deduplicated_repositories dedupFixture "auth" ["c2", "c1"]
      = .ok [("a/b", "U1")] := by
  constructor
  · have h := (dedup_overlay_last_wins dedupFixture "auth"
      [("c1", [("a/b", "U1")]), ("c2", [("a/b", "U2")])] ["c1", "c2"]
      rfl (by decide) (by decide)).1
    refine h.trans ?_
    have e : overlayStoredMaps
        [("c1", [("a/b", "U1")]), ("c2", [("a/b", "U2")])] ["c1", "c2"]
        = [("a/b", "U2")] := by decide
    rw [e]
  · have h := (dedup_overlay_last_wins dedupFixture "auth"
      [("c1", [("a/b", "U1")]), ("c2", [("a/b", "U2")])] ["c2", "c1"]
      rfl (by decide) (by decide)).1
    refine h.trans ?_
    have e : overlayStoredMaps
        [("c1", [("a/b", "U1")]), ("c2", [("a/b", "U2")])] ["c2", "c1"]
        = [("a/b", "U1")] := by decide
    rw [e]

theorem dget_dset_isSome {α : Type} (d : Dict α) (k q : String) (v : α)
    (h : (dget d q).isSome) : (dget (dset d k v) q).isSome := by
  rw [dget_dset]
  split <;> simp [h]

/-- The store after one commit pass is either unchanged (memoized) or the
store with the commit entry assigned. -/
theorem loadRepositoriesCommit_store_shape (env : RepoEnv) (rd : String)
    (olt : Bool) (roles : Option (List String)) (st : Dict (Dict GitRepo))
    (c : Commit) :
    (loadRepositoriesCommit env rd olt roles st c).1 = st
      ∨ ∃ m, (loadRepositoriesCommit env rd olt roles st c).1 = dset st c m := by
  unfold loadRepositoriesCommit
  split
  · exact Or.inl rfl
  · split
    · exact Or.inr ⟨_, rfl⟩
    · exact Or.inr ⟨_, rfl⟩
    · exact Or.inr ⟨_, rfl⟩

theorem loadRepositoriesCommit_preserves (env : RepoEnv) (rd : String)
    (olt : Bool) (roles : Option (List String)) (st : Dict (Dict GitRepo))
    (c q : Commit) (h : (dget st q).isSome) :
    (dget (loadRepositoriesCommit env rd olt roles st c).1 q).isSome := by
  rcases loadRepositoriesCommit_store_shape env rd olt roles st c with hs | ⟨m, hs⟩
  · rw [hs]; exact h
  · rw [hs]; exact dget_dset_isSome st c q m h

theorem loadRepositoriesCommit_self (env : RepoEnv) (rd : String)
    (olt : Bool) (roles : Option (List String)) (st : Dict (Dict GitRepo))
    (c : Commit) :
    (dget (loadRepositoriesCommit env rd olt roles st c).1 c).isSome := by
  unfold loadRepositoriesCommit
  split
  · next h => exact h
  · split <;> (rw [dget_dset]; simp)

/-- A memoized commit is skipped with no reads and no store change. -/
theorem loadRepositoriesCommit_memoized (env : RepoEnv) (rd : String)
    (olt : Bool) (roles : Option (List String)) (st : Dict (Dict GitRepo))
    (c : Commit) (h : (dget st c).isSome) :
    loadRepositoriesCommit env rd olt roles st c = (st, [], none) := by
  unfold loadRepositoriesCommit
  rw [if_pos h]

theorem loadRepositoriesLoop_preserves (env : RepoEnv) (rd : String)
    (olt : Bool) (roles : Option (List String)) (cs : List Commit)
    (st : Dict (Dict GitRepo)) (tr : List ReadEvent) (q : Commit)
    (h : (dget st q).isSome) :
    (dget (loadRepositoriesLoop env rd olt roles cs st tr).store q).isSome := by
  induction cs generalizing st tr with
  | nil => exact h
  | cons c rest ih =>
    have hc := loadRepositoriesCommit_preserves env rd olt roles st c q h
    cases hres : (loadRepositoriesCommit env rd olt roles st c).2.2 with
    | some e => simp only [loadRepositoriesLoop, hres]; exact hc
    | none => simp only [loadRepositoriesLoop, hres]; exact ih _ _ hc

theorem loadRepositoriesLoop_mem (env : RepoEnv) (rd : String) (olt : Bool)
    (roles : Option (List String)) (cs : List Commit)
    (st : Dict (Dict GitRepo)) (tr : List ReadEvent)
    (h : (loadRepositoriesLoop env rd olt roles cs st tr).error = none) :
    ∀ c ∈ cs,
      (dget (loadRepositoriesLoop env rd olt roles cs st tr).store c).isSome := by
  induction cs generalizing st tr with
  | nil => intro c hc; cases hc
  | cons c0 rest ih =>
    intro c hc
    cases hres : (loadRepositoriesCommit env rd olt roles st c0).2.2 with
    | some e =>
      exfalso
      simp only [loadRepositoriesLoop, hres] at h
      cases h
    | none =>
      simp only [loadRepositoriesLoop, hres] at h ⊢
      rcases List.mem_cons.1 hc with rfl | hrest
      · exact loadRepositoriesLoop_preserves env rd olt roles rest _ _ c
          (loadRepositoriesCommit_self env rd olt roles st c)
      · exact ih _ _ h c hrest

theorem loadRepositoriesLoop_noop (env : RepoEnv) (rd : String) (olt : Bool)
    (roles : Option (List String)) (cs : List Commit)
    (st : Dict (Dict GitRepo)) (tr : List ReadEvent)
    (h : ∀ c ∈ cs, (dget st c).isSome) :
    loadRepositoriesLoop env rd olt roles cs st tr = ⟨st, tr, none⟩ := by
  induction cs generalizing tr with
  | nil => rfl
  | cons c rest ih =>
    have hmem :=
      loadRepositoriesCommit_memoized env rd olt roles st c
        (h c (List.mem_cons_self _ _))
    simp only [loadRepositoriesLoop, hmem, List.append_nil]
    exact ih _ (fun x hx => h x (List.mem_cons_of_mem _ hx))

/-- C2: when a first load_repositories call over a commits list succeeds, a
second call over the same commits list is a no-op regardless of its
environment (class policy, factory, root_dir) and its only_load_targets and
roles arguments: the store is returned unchanged, no metadata read happens
(the trace is empty) and no error is raised. -/
theorem load_repositories_memoized_noop (env env2 : RepoEnv)
    (st : Dict (Dict GitRepo)) (rd rd2 : Option String) (olt olt2 : Bool)
    (cs : List Commit) (roles roles2 : Option (List String))
    (h : (load_repositories env st rd olt (some cs) roles).error = none) :
    load_repositories env2
        (load_repositories env st rd olt (some cs) roles).store rd2 olt2
        (some cs) roles2
      = ⟨(load_repositories env st rd olt (some cs) roles).store, [], none⟩ := by
  have hmem : ∀ c ∈ cs,
      (dget (load_repositories env st rd olt (some cs) roles).store c).isSome := by
    simp only [load_repositories] at h ⊢
    exact loadRepositoriesLoop_mem env _ _ roles cs st [] h
  simp only [load_repositories]
  exact loadRepositoriesLoop_noop env2 _ _ roles2 cs _ [] hmem

/-- C2 witness: the theorem applied at a concrete first call (marking commit
c1 visited with an empty map); the second call uses an environment whose every
read fails and different only_load_targets, roles and root_dir arguments, and
still returns the store unchanged with an empty read trace. -/
theorem load_repositories_memoized_noop_witness :
    load_repositories envIdemB
        (load_repositories envIdemA [] none true (some ["c1"]) none).store
        (some "other") false (some ["c1"]) (some ["targets"])
      = ⟨(load_repositories envIdemA [] none true (some ["c1"]) none).store,
          [], none⟩ :=
  load_repositories_memoized_noop envIdemA envIdemB [] none (some "other")
    true false ["c1"] none (some ["targets"]) (by decide)

/-- With no ancestor hosts the first commit pass raises TypeError at the
hosts-accumulator assignment, before the memoization check and before any
store write, provided the hosts.json read producing the assigned value
succeeds. -/
theorem loadDependenciesCommit_emptyList (env : DepEnv) (rd : String)
    (st : Dict (Dict AuthRepo)) (c : Commit) (hj : HostsInfo)
    (hread : env.ownHostsJson c = .ok hj) :
    loadDependenciesCommit env rd .emptyList st c
      = (.emptyList, st, [.ownHostsJson c],
          some (.typeError listIndexTypeErrorMsg)) := by
  simp [loadDependenciesCommit, hread]

/-- C10: for any non-empty commits argument, or for a defined HEAD commit
with commits omitted, calling load_dependencies without ancestor_hosts raises
a TypeError before any per-commit dependency entry is recorded: the hosts
accumulator is the empty Python list and the first commit sha indexes it as
if it were a mapping; the store is returned unchanged. The hypotheses state
that the hosts.json reads involved succeed (otherwise their metadata error
would propagate instead, equally before any entry is recorded). -/
theorem load_dependencies_no_ancestor_hosts_type_error (env : DepEnv)
    (st : Dict (Dict AuthRepo)) (rd : Option String) (c : Commit)
    (cs : List Commit) (hj : HostsInfo)
    (hread : env.ownHostsJson c = .ok hj) :
    ((load_dependencies env st rd (some (c :: cs)) none).error
        = some (.typeError listIndexTypeErrorMsg)
      ∧ (load_dependencies env st rd (some (c :: cs)) none).store = st)
  ∧ (∀ h hj2, env.headCommit = some h → env.ownHostsJson h = .ok hj2 →
      (load_dependencies env st rd none none).error
          = some (.typeError listIndexTypeErrorMsg)
        ∧ (load_dependencies env st rd none none).store = st) := by
  constructor
  · have hc := loadDependenciesCommit_emptyList env (rd.getD env.defaultRootDir)
      st c hj hread
    simp only [load_dependencies, loadDependenciesLoop, hc]
    exact ⟨trivial, trivial⟩
  · intro h hj2 hhead hread2
    have hc := loadDependenciesCommit_emptyList env (rd.getD env.defaultRootDir)
      st h hj2 hread2
    simp only [load_dependencies, hhead, loadDependenciesLoop, hc]
    exact ⟨trivial, trivial⟩

/-- C10 witness: the theorem applied to a concrete environment with defined
HEAD and readable hosts.json, once with an explicit commits list and once
with commits omitted (HEAD default). -/
theorem load_dependencies_no_ancestor_hosts_type_error_witness :
    ((load_dependencies envHostsPlain [] none (some ["c1"]) none).error
        = some (.typeError listIndexTypeErrorMsg)
      ∧ (load_dependencies envHostsPlain [] none (some ["c1"]) none).store = [])
  ∧ ((load_dependencies envHostsPlain [] none none none).error
        = some (.typeError listIndexTypeErrorMsg)
      ∧ (load_dependencies envHostsPlain [] none none none).store = []) :=
  ⟨(load_dependencies_no_ancestor_hosts_type_error envHostsPlain [] none "c1"
      [] [] rfl).1,
   (load_dependencies_no_ancestor_hosts_type_error envHostsPlain [] none "c1"
      [] [] rfl).2 "h1" [] rfl rfl⟩

/-- C4 counterexample: with only_load_targets true (the default) the claim
says a declared path that is not a signed target is skipped entirely, with no
URL resolution, so a malformed non-target path cannot cause a failure. At
this input the declared path badpath is not a signed target, yet the load of
commit c1 fails with RepositoryInstantiationError from URL resolution,
because resolution runs before the target check. -/
theorem load_repositories_nontarget_url_failure_cex :
    dget (envNonTarget.signedTargets "c1" none) "badpath" = none
  ∧ (load_repositories envNonTarget [] none true (some ["c1"]) none).error
      = some (.repositoryInstantiation "badpath"
          "repository name is not in the org_name/repo_name format") :=
  ⟨rfl, by decide⟩

/-- C4 amended: with only_load_targets true, every declared path that is not
a signed target is excluded from the resulting map; however URL resolution is
performed before the target check, so a non-target path whose URL resolution
fails aborts the commit pass with that error instead of being skipped. -/
theorem load_repositories_only_targets_amended
    (inst : String → String → List String → Dict JVal → Except String GitRepo)
    (rootDir : String) (targets : Dict TargetData)
    (mirrors : Option (List Template)) :
    (∀ (L : List (String × RepoData)) (rmap : Dict GitRepo) (p : String),
      (dget targets p).isNone → (dget rmap p).isNone →
      (dget (loadTargetRepos inst rootDir targets true mirrors L rmap).1 p).isNone)
  ∧ (∀ (p : String) (d : RepoData) (rest : List (String × RepoData))
      (rmap : Dict GitRepo) (e : Err),
      (dget targets p).isNone → get_urls mirrors p d = .error e →
      loadTargetRepos inst rootDir targets true mirrors ((p, d) :: rest) rmap
        = (rmap, some e)) := by
  constructor
  · intro L
    induction L with
    | nil =>
      intro rmap p _ h2
      simpa [loadTargetRepos] using h2
    | cons hd rest ih =>
      obtain ⟨q, dd⟩ := hd
      intro rmap p htp hrp
      cases hu : get_urls mirrors q dd with
      | error err => simpa [loadTargetRepos, hu] using hrp
      | ok urls =>
        by_cases hsk : (dget targets q).isNone
        · simp only [loadTargetRepos, hu, hsk, Bool.and_self, if_true]
          exact ih rmap p htp hrp
        · have hq : q ≠ p := by
            intro hqp
            rw [hqp] at hsk
            exact hsk htp
          have hcond : ((dget targets q).isNone && true) = false := by
            simp [hsk]
          simp only [loadTargetRepos, hu, hcond, Bool.false_eq_true, if_false]
          cases hinst : inst rootDir q urls
              (get_custom_data dd.custom (dget targets q)).1 with
          | error msg =>
            simpa using hrp
          | ok repo =>
            apply ih
            · exact htp
            · rw [dget_dset]
              rw [if_neg hq]
              exact hrp
  · intro p d rest rmap e htp hu
    simp [loadTargetRepos, hu]

/-- C4 amended witness: the theorem applied at concrete inputs: a non-target
path with valid urls is excluded from the resulting map, and a malformed
non-target path fails the pass with RepositoryInstantiationError. -/
theorem load_repositories_only_targets_amended_witness :
    (dget (loadTargetRepos instOK "lib" [] true none
        [("x/y", ⟨some ["u"], none⟩)] []).1 "x/y").isNone
  ∧ loadTargetRepos instOK "lib" [] true (some [[.lit "m"]])
        [("badpath", ⟨none, none⟩)] []
      = ([], some (.repositoryInstantiation "badpath"
          "repository name is not in the org_name/repo_name format")) :=
  ⟨(load_repositories_only_targets_amended instOK "lib" [] none).1
      [("x/y", ⟨some ["u"], none⟩)] [] "x/y" rfl rfl,
   (load_repositories_only_targets_amended instOK "lib" []
        (some [[.lit "m"]])).2 "badpath" ⟨none, none⟩ [] []
      (.repositoryInstantiation "badpath"
        "repository name is not in the org_name/repo_name format") rfl rfl⟩

/-- Every error raised by get_urls is a RepositoryInstantiationError. -/
theorem get_urls_error_shape (mirrors : Option (List Template)) (p : String)
    (d : RepoData) (e : Err) (h : get_urls mirrors p d = .error e) :
    ∃ q msg, e = .repositoryInstantiation q msg := by
  unfold get_urls at h
  split at h
  · cases h
  · split at h
    · injection h with h2
      exact ⟨_, _, h2.symm⟩
    · split at h
      · cases h
      · injection h with h2
        exact ⟨_, _, h2.symm⟩

/-- C3 counterexample: a declared dependency whose construction fails during
URL resolution. The claim says a RepositoryInstantiationError propagates to
the caller of load_dependencies; at this input the error is caught inside the
loop (the commit dict is cleared and the loop breaks), no error reaches the
caller and the stored entry for the commit is the empty map. -/
theorem load_dependencies_url_error_swallowed_cex :
    (∃ msg, get_urls none "badpath" ⟨none, none⟩
        = .error (.repositoryInstantiation "badpath" msg))
  ∧ (load_dependencies envDepSwallow [] none (some ["c1"])
      (some [("c1", [])])).error = none
  ∧ (load_dependencies envDepSwallow [] none (some ["c1"])
      (some [("c1", [])])).store = [("c1", [])] :=
  ⟨⟨_, rfl⟩, by decide, by decide⟩

/-- C3 amended: in load_repositories any construction failure (URL resolution
or instantiation) raises a RepositoryInstantiationError that propagates to
the caller, and the stored map for the commit holds exactly the repositories
processed before the failing path (nothing past the failure point). In
load_dependencies an instantiation failure is likewise re-raised as a
RepositoryInstantiationError carrying the resolved root/path, but a
URL-resolution failure is caught: the stored map for the commit is cleared
and the pass over the dependencies of that commit stops with no error propagating
to the caller. -/
theorem load_construction_failure_abort_amended :
    (∀ (inst : String → String → List String → Dict JVal → Except String GitRepo)
      (rootDir : String) (targets : Dict TargetData) (olt : Bool)
      (mirrors : Option (List Template)) (L : List (String × RepoData))
      (rmap m : Dict GitRepo) (e : Err),
      loadTargetRepos inst rootDir targets olt mirrors L rmap = (m, some e) →
      (∃ p msg, e = .repositoryInstantiation p msg)
      ∧ ∃ pre p d post, L = pre ++ (p, d) :: post
          ∧ loadTargetRepos inst rootDir targets olt mirrors pre rmap = (m, none))
  ∧ (∀ (env : RepoEnv) (st : Dict (Dict GitRepo)) (rd : Option String)
      (olt : Bool) (c : Commit) (reps : Dict RepoData) (m : Dict GitRepo)
      (e : Err),
      (dget st c).isNone →
      env.repositoriesJson c = .ok (some reps) →
      loadTargetRepos env.instantiate (rd.getD env.defaultRootDir)
          (env.signedTargets c none) olt (env.mirrorsJson c) reps []
        = (m, some e) →
      (load_repositories env st rd olt (some [c]) none).error = some e
      ∧ dget (load_repositories env st rd olt (some [c]) none).store c
          = some m)
  ∧ (∀ (instAuth : String → String → List String → Dict JVal →
        Except String AuthRepo)
      (chj : String → Commit → Except Err HostsInfo) (rootDir : String)
      (mirrors : Option (List Template)) (hac : List HostsInfo)
      (commit : Commit) (p : String) (d : RepoData)
      (rest : List (String × RepoData)) (dmap : Dict AuthRepo) (e : Err),
      get_urls mirrors p d = .error e →
      loadDependencyRepos instAuth chj rootDir mirrors hac commit
          ((p, d) :: rest) dmap = ([], [], none))
  ∧ (∀ (instAuth : String → String → List String → Dict JVal →
        Except String AuthRepo)
      (chj : String → Commit → Except Err HostsInfo) (rootDir : String)
      (mirrors : Option (List Template)) (hac : List HostsInfo)
      (commit : Commit) (p : String) (d : RepoData)
      (rest : List (String × RepoData)) (dmap : Dict AuthRepo)
      (urls : List String) (msg : String),
      get_urls mirrors p d = .ok urls →
      instAuth rootDir p urls (get_custom_data d.custom none).1 = .error msg →
      loadDependencyRepos instAuth chj rootDir mirrors hac commit
          ((p, d) :: rest) dmap
        = (dmap, [],
            some (.repositoryInstantiation (rootDir ++ "/" ++ p) msg))) := by
  refine ⟨?_, ?_, ?_, ?_⟩
  · intro inst rootDir targets olt mirrors L
    induction L with
    | nil =>
      intro rmap m e h
      simp [loadTargetRepos] at h
    | cons hd rest ih =>
      obtain ⟨q, dd⟩ := hd
      intro rmap m e h
      cases hu : get_urls mirrors q dd with
      | error e0 =>
        simp only [loadTargetRepos, hu] at h
        obtain ⟨h1, h2⟩ := Prod.mk.injEq .. ▸ h
        injection h2 with h2
        subst h1 h2
        refine ⟨get_urls_error_shape mirrors q dd e0 hu, [], q, dd, rest, rfl, rfl⟩
      | ok urls =>
        by_cases hsk : ((dget targets q).isNone && olt) = true
        · simp only [loadTargetRepos, hu, hsk, if_true] at h
          obtain ⟨hshape, pre, p, d, post, hL, hpre⟩ := ih rmap m e h
          refine ⟨hshape, (q, dd) :: pre, p, d, post, by rw [hL]; rfl, ?_⟩
          simp only [loadTargetRepos, hu, hsk, if_true]
          exact hpre
        · rw [Bool.not_eq_true] at hsk
          cases hinst : inst rootDir q urls
              (get_custom_data dd.custom (dget targets q)).1 with
          | error msg =>
            simp only [loadTargetRepos, hu, hsk, Bool.false_eq_true, if_false,
              hinst] at h
            obtain ⟨h1, h2⟩ := Prod.mk.injEq .. ▸ h
            injection h2 with h2
            subst h1 h2
            exact ⟨⟨_, _, rfl⟩, [], q, dd, rest, rfl, rfl⟩
          | ok repo =>
            simp only [loadTargetRepos, hu, hsk, Bool.false_eq_true, if_false,
              hinst] at h
            obtain ⟨hshape, pre, p, d, post, hL, hpre⟩ :=
              ih (dset rmap q repo) m e h
            refine ⟨hshape, (q, dd) :: pre, p, d, post, by rw [hL]; rfl, ?_⟩
            simp only [loadTargetRepos, hu, hsk, Bool.false_eq_true, if_false,
              hinst]
            exact hpre
  · intro env st rd olt c reps m e hnone hjson hloop
    have hnone2 : dget st c = none := by
      cases hd : dget st c
      · rfl
      · rw [hd] at hnone; cases hnone
    have hc : loadRepositoriesCommit env (rd.getD env.defaultRootDir) olt none
        st c = (dset st c m, [.repositoriesJson c, .mirrorsJson c,
          .signedTargets c], some e) := by
      unfold loadRepositoriesCommit
      rw [if_neg (by rw [hnone2]; simp), hjson]
      simp only [hloop]
    simp only [load_repositories, loadRepositoriesLoop, hc]
    exact ⟨trivial, by rw [dget_dset, if_pos rfl]⟩
  · intro instAuth chj rootDir mirrors hac commit p d rest dmap e hu
    simp [loadDependencyRepos, hu]
  · intro instAuth chj rootDir mirrors hac commit p d rest dmap urls msg hu
      hinst
    simp [loadDependencyRepos, hu, hinst]

/-- C3 amended witness: the theorem applied at concrete inputs: a dependency
whose instantiation raises is re-raised as RepositoryInstantiationError with
the resolved root and path, and in load_repositories a failing commit pass
surfaces its error to the caller with the partial map stored. -/
theorem load_construction_failure_abort_amended_witness :
    loadDependencyRepos (fun _ _ _ _ => .error "boom") (fun _ _ => .ok [])
        "lib" none [] "c1" [("a/b", ⟨some ["u"], none⟩)] []
      = ([], [],
          some (.repositoryInstantiation ("lib" ++ "/" ++ "a/b") "boom")) :=
  load_construction_failure_abort_amended.2.2.2
    (fun _ _ _ _ => .error "boom") (fun _ _ => .ok []) "lib" none [] "c1"
    "a/b" ⟨some ["u"], none⟩ [] [] ["u"] "boom" rfl rfl

end Taf
